import Mathlib

/-!
Verification development for the starsource-comparer repository.

The definitions below are a shallow embedding of the repository's Rust
source (src/disasm.rs, src/pdb.rs, src/compare.rs, src/generate_report.rs,
src/generate_full.rs).  Machine integers are modelled as `Nat`/`Int` with
explicit reduction modulo `2^64` where wrap-around matters; fallible code
returns `Option`/`Except`; a Rust panic is modelled as a distinguished
outcome constructor.  Definitions whose doc comment starts with
`Modelled from the spec:` stand for code this repository uses that is not
under src/ (external collaborator crates, or repository files such as
comparer_config.rs and hexformat.rs that are absent from src/).
-/

/-! ## Hexadecimal formatting (Rust `format!("{:#X}", _)` and friends) -/

/-- One uppercase hexadecimal digit, as printed by Rust's `{:X}` format. -/
def hexDigitChar (n : Nat) : Char :=
  if n < 10 then Char.ofNat (48 + n) else Char.ofNat (55 + n)

/-- Fuel-driven digit accumulator for uppercase hexadecimal rendering. -/
def natToHexAux : Nat → Nat → List Char → List Char
  | 0, _, acc => acc
  | fuel + 1, n, acc =>
      if n = 0 then acc else natToHexAux fuel (n / 16) (hexDigitChar (n % 16) :: acc)

/-- Uppercase hexadecimal digit string of a natural number (Rust `{:X}`). -/
def natHexDigits (n : Nat) : String :=
  if n = 0 then "0" else String.mk (natToHexAux (n + 1) n [])

/-- Rust `format!("{:#X}", x)` on an unsigned integer: `0x` then uppercase digits. -/
def rustHexUpper (n : Nat) : String :=
  "0x" ++ natHexDigits n

/-- Two's-complement 64-bit image of an `i64` value, as a natural number. -/
def intToU64 (v : Int) : Nat :=
  (v.emod (2 ^ 64)).toNat

/-- Rust `format!("{:#X}", x)` on an `i64`: formats the two's-complement bits. -/
def i64HexX (v : Int) : String :=
  rustHexUpper (intToU64 v)

/-- Modelled from the spec: `CustomUpperHexFormat` with `{:+#X}` (hexformat.rs is
not under src/); a sign character followed by `0x` and the magnitude in
uppercase hexadecimal. -/
def signedHexPlus (v : Int) : String :=
  (if v < 0 then "-" else "+") ++ "0x" ++ natHexDigits v.natAbs

/-! ## Data model (comparer_config.rs is not under src/) -/

/-- Modelled from the spec: `FunctionDefinition` from comparer_config.rs — a
function known from the reference binary's configuration: `name`, `addr`
(absolute virtual address), optional `size`. -/
structure FunctionDefinition where
  addr : Nat
  name : String
  size : Option Nat
deriving DecidableEq, Repr

/-- An address-keyed function map (Rust `HashMap<u64, FunctionDefinition>`),
represented as an association list; only keyed lookup is ever observed. -/
abbrev FnMap := List (Nat × FunctionDefinition)

/-- Keyed lookup in an `FnMap` (Rust `HashMap::get`). -/
def fnMapGet (m : FnMap) (k : Nat) : Option FunctionDefinition :=
  (m.find? (fun p => p.1 == k)).map Prod.snd

/-- `DisasmOpts` from disasm.rs (field spelling kept from the source). -/
structure DisasmOpts where
  print_adresses : Bool
  show_mem_disp : Bool
  show_imms : Bool
deriving DecidableEq, Repr

/-! ## Decoded-instruction model (decoder collaborator surface) -/

/-- The parts of a decoded operand the formatter hooks consume
(zydis `DecodedOperandKind`): a memory operand carries its displacement
presence flag and signed displacement; an immediate carries its value and
the relative/signed flags. -/
inductive OperandKind where
  | mem (hasDisp : Bool) (disp : Int)
  | imm (value : Int) (isRelative : Bool) (isSigned : Bool)
  | other
deriving DecidableEq, Repr

/-- A decoded operand: its kind and the decoder-reported operand size field
(the `size` field zydis attaches to each operand, printed verbatim in the
typed placeholders). -/
structure Operand where
  kind : OperandKind
  size : Nat
deriving DecidableEq, Repr

/-- The parts of a decoded instruction the formatter consumes: opcode byte,
modrm reg field, instruction length, operand list, mnemonic text. -/
structure Insn where
  opcode : Nat
  modrmReg : Nat
  length : Nat
  operands : List Operand
  mnemonic : String
deriving DecidableEq, Repr

/-! ## disasm.rs: formatter hooks -/

/-- `cleanup_name` from disasm.rs: `name.split('(').next().unwrap_or(name)` —
everything before the first `'('`, the whole name if there is none. -/
def cleanupNameChars : List Char → List Char
  | [] => []
  | c :: cs => if c = '(' then [] else c :: cleanupNameChars cs

/-- `cleanup_name` on strings. -/
def cleanup_name (name : String) : String :=
  String.mk (cleanupNameChars name.data)

/-- Modelled from the spec: zydis `calc_absolute_address` for a relative
immediate — the absolute target address is
`base_address_at_this_instruction + immediate_value + instruction_length`,
wrapping in 64 bits. -/
def callTarget (ip len : Nat) (value : Int) : Nat :=
  (((ip : Int) + value + (len : Int)).emod (2 ^ 64)).toNat

/-- `format_addrs` from disasm.rs: the `print_address_abs` formatter hook.
Memory operands: with a displacement, an indirect call/jump through memory
(opcode `0xFF`, modrm reg field 2 or 3) prints `<indir_fn>`, otherwise the
literal displacement via `{:#X}`; without a displacement, `<indir_addr>`.
Immediate operands: on opcode `0xE8` the computed absolute target is looked
up in the function map, printing the mapped name through `cleanup_name` on a
hit and `{:#X}` of the target on a miss; other relative immediates print `$`
and a signed hex value, other absolute immediates print `<imm_addr>`. -/
def format_addrs (ip : Nat) (m : FnMap) (insn : Insn) (op : Operand) : String :=
  match op.kind with
  | .mem hasDisp disp =>
      if hasDisp then
        if insn.opcode = 0xFF ∧ (insn.modrmReg = 2 ∨ insn.modrmReg = 3) then "<indir_fn>"
        else i64HexX disp
      else "<indir_addr>"
  | .imm value isRelative isSigned =>
      if insn.opcode = 0xE8 then
        match fnMapGet m (callTarget ip insn.length value) with
        | some f => cleanup_name f.name
        | none => rustHexUpper (callTarget ip insn.length value)
      else if isRelative then
        "$" ++ (if isSigned then signedHexPlus value else "+" ++ rustHexUpper (intToU64 value))
      else "<imm_addr>"
  | .other => ""

/-- `void_format_disp` from disasm.rs: the `print_disp` hook installed when
`show_mem_disp` is false — for a real displacement, a sign character and the
typed placeholder `<dispN>` with `N` the operand's size field; nothing
otherwise. -/
def void_format_disp (hasDisp : Bool) (disp : Int) (size : Nat) : String :=
  if hasDisp then (if disp < 0 then "-" else "+") ++ "<disp" ++ toString size ++ ">"
  else ""

/-- `void_format_imms` from disasm.rs: the `print_imm` hook installed when
`show_imms` is false — the typed placeholder `<immN>`. -/
def void_format_imms (op : Operand) : String :=
  "<imm" ++ toString op.size ++ ">"

/-- Modelled from the spec: the zydis formatter's per-operand dispatch between
the installed hooks (the dispatch itself lives in the external zydis crate).
A memory operand goes to the absolute-address hook when `show_mem_disp` is
true, and also — regardless of the flag — when it is an indirect call/jump
through memory with a displacement; otherwise `<indir_addr>` is printed and
the displacement hook's output is appended.  An immediate goes to the
absolute-address hook for direct calls (opcode `0xE8`) and whenever
`show_imms` is true, else to the immediate-voiding hook. -/
def formatOperand (opts : DisasmOpts) (ip : Nat) (m : FnMap) (insn : Insn) (op : Operand) : String :=
  match op.kind with
  | .mem hasDisp disp =>
      if opts.show_mem_disp then format_addrs ip m insn op
      else if hasDisp ∧ insn.opcode = 0xFF ∧ (insn.modrmReg = 2 ∨ insn.modrmReg = 3) then
        format_addrs ip m insn op
      else "<indir_addr>" ++ void_format_disp hasDisp disp op.size
  | .imm _ _ _ =>
      if insn.opcode = 0xE8 then format_addrs ip m insn op
      else if opts.show_imms then format_addrs ip m insn op
      else void_format_imms op
  | .other => ""

/-! ## disasm.rs: `write_disasm` -/

/-- One item of the decoder collaborator's instruction stream: a decoded
instruction at its address, or a decode failure (an `Err` item of
`decode_all`). -/
inductive DecodeItem where
  | ok (ip : Nat) (insn : Insn)
  | fail
deriving DecidableEq, Repr

/-- Outcome of a whole render call: the text, or a Rust panic (the source
calls `.unwrap()` on each decode result, so a decode failure panics). -/
inductive RenderResult where
  | ok (text : String)
  | panic
deriving DecidableEq, Repr

/-- Comma-separated operand join for one rendered instruction line. -/
def joinOperands : List String → String
  | [] => ""
  | [s] => s
  | s :: rest => s ++ ", " ++ joinOperands rest

/-- One rendered output line for a decoded instruction: the mnemonic and the
formatted operands, prefixed with the uppercase-hex address and `": "` when
`print_adresses` is set (disasm.rs lines 110-114). -/
def renderInsn (opts : DisasmOpts) (ip : Nat) (m : FnMap) (insn : Insn) : String :=
  if opts.print_adresses then
    natHexDigits ip ++ ": " ++ insn.mnemonic ++ " "
      ++ joinOperands (insn.operands.map (formatOperand opts ip m insn))
  else
    insn.mnemonic ++ " " ++ joinOperands (insn.operands.map (formatOperand opts ip m insn))

/-- Worker for `write_disasm`: folds the instruction stream into the output
text; a decode failure makes the whole call panic (`insn_info.unwrap()`). -/
def write_disasmAux (opts : DisasmOpts) (m : FnMap) : List DecodeItem → String → RenderResult
  | [], acc => .ok acc
  | .fail :: _, _ => .panic
  | .ok ip insn :: rest, acc =>
      write_disasmAux opts m rest (acc ++ renderInsn opts ip m insn ++ "\n")

/-- `write_disasm` from disasm.rs, over the decoder collaborator's stream. -/
def write_disasm (opts : DisasmOpts) (m : FnMap) (items : List DecodeItem) : RenderResult :=
  write_disasmAux opts m items ""

/-! ## pdb.rs: symbol extraction -/

/-- `PDB_SEGMENT_OFFSET` from pdb.rs. -/
def PDB_SEGMENT_OFFSET : Nat := 0x00400C00

/-- The fixed PDB-segment preamble constant subtracted from each start RVA
(pdb.rs line 66). -/
def PDB_PREAMBLE : Nat := 0xC00

/-- A raw function record from the debug-format collaborator
(`pdb_addr2line::Function` plus the frame files `find_frames` yields for its
start RVA): optional name, start RVA, optional end RVA, mapped source files. -/
structure PdbFuncRecord where
  name : Option String
  start_rva : Nat
  end_rva : Option Nat
  files : List String
deriving DecidableEq, Repr

/-- `FunctionSymbol` from pdb.rs. -/
structure FunctionSymbol where
  name : String
  file : String
  offset : Nat
  size : Nat
deriving DecidableEq, Repr

/-- `to_function_symbol` from pdb.rs.  `data.name.unwrap()` panics on a
nameless record; the `u32` subtractions `start_rva - 0xC00` and
`end_rva - start_rva` panic on underflow (checked arithmetic); both panics
are modelled as `none`.  The source file is the first frame file, or the
sentinel `"UNKNOWN"`. -/
def to_function_symbol (r : PdbFuncRecord) : Option FunctionSymbol :=
  match r.name with
  | none => none
  | some n =>
      if r.start_rva < PDB_PREAMBLE then none
      else
        match r.end_rva with
        | some e =>
            if e < r.start_rva then none
            else some ⟨n, r.files.headD "UNKNOWN", r.start_rva - PDB_PREAMBLE, e - r.start_rva⟩
        | none => some ⟨n, r.files.headD "UNKNOWN", r.start_rva - PDB_PREAMBLE, 0⟩

/-- `FunctionSymbol::as_function_definition` from pdb.rs: the absolute address
is `offset + PDB_SEGMENT_OFFSET`, the name is kept, the size is wrapped. -/
def as_function_definition (s : FunctionSymbol) : FunctionDefinition :=
  ⟨s.offset + PDB_SEGMENT_OFFSET, s.name, some s.size⟩

/-- `FunctionSymbol::as_function_definition_pair` from pdb.rs. -/
def as_function_definition_pair (s : FunctionSymbol) : Nat × FunctionDefinition :=
  ((as_function_definition s).addr, as_function_definition s)

/-- Maximal run of characters other than `'@'` and `'('` taken from the front
of the list. -/
def takeRun : List Char → List Char
  | [] => []
  | c :: cs => if c = '@' ∨ c = '(' then [] else c :: takeRun cs

/-- First maximal run of characters other than `'@'` and `'('` — the leftmost
match of the regex `[^@(]+` (excluded leading characters are skipped). -/
def firstRun : List Char → List Char
  | [] => []
  | c :: cs => if c = '@' ∨ c = '(' then firstRun cs else c :: takeRun cs

/-- `demangle_function_name` from pdb.rs: collect the first (leftmost-longest)
match of `[^@(]+` in the raw name; an empty string results when the regex
does not match at all. -/
def demangle_function_name (name : String) : String :=
  String.mk (firstRun name.data)

/-- The transform C4's spec sentence describes, written from the spec's words
for comparison with `demangle_function_name`: the longest LEADING run of
characters excluding `'@'` and `'('`. -/
def leadingRunSpec (name : String) : String :=
  String.mk (name.data.takeWhile (fun c => ¬(c = '@' ∨ c = '(')))

/-- Name-keyed map insert with overwrite (Rust `HashMap::insert`): the new
binding shadows and removes any previous binding of the same key. -/
def symMapInsert (m : List (String × FunctionSymbol)) (k : String) (v : FunctionSymbol) :
    List (String × FunctionSymbol) :=
  (k, v) :: m.filter (fun p => !(p.1 == k))

/-- Worker for `get_pdb_funcs`: inserts each record's symbol under its
demangled name, left to right; a panic in `to_function_symbol` aborts the
whole extraction (modelled as `none`). -/
def get_pdb_funcsAux : List PdbFuncRecord → List (String × FunctionSymbol) →
    Option (List (String × FunctionSymbol))
  | [], acc => some acc
  | r :: rs, acc =>
      match to_function_symbol r with
      | none => none
      | some s => get_pdb_funcsAux rs (symMapInsert acc (demangle_function_name s.name) s)

/-- `get_pdb_funcs` from pdb.rs, over the debug-format collaborator's record
stream. -/
def get_pdb_funcs (records : List PdbFuncRecord) : Option (List (String × FunctionSymbol)) :=
  get_pdb_funcsAux records []

/-- Name-keyed lookup (Rust `HashMap::get`) in the extracted symbol map. -/
def symMapGet (m : List (String × FunctionSymbol)) (k : String) : Option FunctionSymbol :=
  (m.find? (fun p => p.1 == k)).map Prod.snd

/-- `get_pdb_fn_map` from compare.rs: every extracted symbol keyed at its
`as_function_definition` address. -/
def get_pdb_fn_map (syms : List (String × FunctionSymbol)) : FnMap :=
  syms.map (fun p => as_function_definition_pair p.2)

/-! ## compare.rs: single-function comparison pipeline -/

/-- Modelled from the spec: `ComparerConfig` from comparer_config.rs — the
reference binary's base-address correction and its declared function list. -/
structure ComparerConfig where
  address_offset : Nat
  func : List FunctionDefinition
deriving Repr

/-- The reference-side address map built in `compare.rs::run` (and likewise in
generate_report.rs/generate_full.rs): each configured function keyed at its
configured `addr` verbatim. -/
def orig_fn_map (cfg : ComparerConfig) : FnMap :=
  cfg.func.map (fun f => (f.addr, f))

/-- `CompareError` from compare.rs (the variants the modelled pipeline can
produce), plus a constructor for the `.expect` panic in `write_compare`. -/
inductive CompareErrorM where
  | configSymbolNotFound
  | symbolNotFound
  | requiredFunctionSizeNotFound (name : String)
  | panicExpect
deriving DecidableEq, Repr

/-- One `read_file_into` call: the file offset sought to and the number of
bytes read (the destination buffer's length). -/
structure ReadEvent where
  offset : Nat
  len : Nat
deriving DecidableEq, Repr

/-- `write_compare` from compare.rs, reduced to its byte-extraction plan: the
original-side buffer is `orig_fn.size` bytes (falling back to the PDB size),
the compare-side buffer is the original's declared size when
`truncate_to_original` is set (`.expect` panics when it is absent) and the
PDB-reported size otherwise; the two `read_file_into` calls read those
buffers at `orig_fn.addr - address_offset` and at the symbol's `offset`. -/
def write_compare_model (truncate : Bool) (address_offset : Nat) (origFn : FunctionDefinition)
    (pdbFuncs : List (String × FunctionSymbol)) (debug_symbol : String) :
    Except CompareErrorM (ReadEvent × ReadEvent) :=
  match symMapGet pdbFuncs debug_symbol with
  | none => .error .symbolNotFound
  | some fnSym =>
      let origLen := origFn.size.getD fnSym.size
      match (if truncate then origFn.size else some fnSym.size) with
      | none => .error .panicExpect
      | some compareLen =>
          .ok (⟨origFn.addr - address_offset, origLen⟩, ⟨fnSym.offset, compareLen⟩)

/-- `run` from compare.rs, reduced to its byte-extraction plan: resolve the
configured function by name, fail with the required-size error when
`truncate_to_original` is set and the reference has no declared size —
before `write_compare` performs any byte extraction — and otherwise hand
over to `write_compare`.  An `.error` result carries no `ReadEvent`s: no
byte extraction happened. -/
def run_model (truncate : Bool) (debug_symbol : String) (cfg : ComparerConfig)
    (pdbFuncs : List (String × FunctionSymbol)) : Except CompareErrorM (ReadEvent × ReadEvent) :=
  match cfg.func.find? (fun f => f.name == debug_symbol) with
  | none => .error .configSymbolNotFound
  | some origFn =>
      if origFn.size = none ∧ truncate then
        .error (.requiredFunctionSizeNotFound origFn.name)
      else
        write_compare_model truncate cfg.address_offset origFn pdbFuncs debug_symbol

/-! ## generate_report.rs: image slicing -/

/-- Outcome of slicing a binary's in-memory image: the carved bytes, or a
Rust panic (the source uses unchecked range indexing
`&file[offset..offset + size]`, which panics when the end exceeds the
image length). -/
inductive SliceOutcome where
  | ok (bytes : List Nat)
  | panic
deriving DecidableEq, Repr

/-- The range-indexing slice `&file[offset..offset + len]` from
`create_comparison_data` (generate_report.rs lines 382 and 401). -/
def sliceImage (file : List Nat) (offset len : Nat) : SliceOutcome :=
  if offset + len ≤ file.length then .ok ((file.drop offset).take len) else .panic

/-- The original-side slice step of `create_comparison_data`: the file offset
is `f.addr - base_address`, the length the resolved original size. -/
def orig_slice_step (file : List Nat) (f : FunctionDefinition) (base : Nat) (size : Nat) :
    SliceOutcome :=
  sliceImage file (f.addr - base) size

/-! ## generate_report.rs: diff and match ratio -/

/-- Length of a longest common subsequence of two line lists — the count `M`
of matching opposed lines under an LCS-based line diff. -/
def lcsLen : List String → List String → Nat
  | [], _ => 0
  | _ :: _, [] => 0
  | a :: as, b :: bs =>
      if a = b then lcsLen as bs + 1
      else max (lcsLen (a :: as) bs) (lcsLen as (b :: bs))
termination_by x y => x.length + y.length

/-- Modelled from the spec: the match ratio of the external diff library
(`similar::TextDiff::ratio`), `2*M/T` with `M` the matching-line count and
`T` the total line count of both sequences, and `1` for two empty
sequences. -/
def ratioValue (a b : List String) : ℚ :=
  if a.length + b.length = 0 then 1
  else (2 * (lcsLen a b : ℚ)) / ((a.length : ℚ) + (b.length : ℚ))

/-- One line-level change of the diff: an equal, deleted, or inserted line. -/
inductive LineChange where
  | equal (s : String)
  | delete (s : String)
  | insert (s : String)
deriving DecidableEq, Repr

/-- Whether a change is an equal (matching) line. -/
def LineChange.isEqualTag : LineChange → Bool
  | .equal _ => true
  | _ => false

/-- Modelled from the spec: the LCS-based line diff of the external diff
library — an op list of equal/delete/insert line changes. -/
def diffOps : List String → List String → List LineChange
  | [], bs => bs.map .insert
  | a :: as, [] => .delete a :: diffOps as []
  | a :: as, b :: bs =>
      if a = b then .equal a :: diffOps as bs
      else if lcsLen as (b :: bs) < lcsLen (a :: as) bs then .insert b :: diffOps (a :: as) bs
      else .delete a :: diffOps as (b :: bs)
termination_by x y => x.length + y.length

/-- Rendering of one change in the unified diff body. -/
def lineChangeText : LineChange → String
  | .equal s => " " ++ s
  | .delete s => "-" ++ s
  | .insert s => "+" ++ s

/-- Modelled from the spec: the unified diff text of the external diff
library — empty when the diff holds no non-equal change (no hunks),
otherwise a header plus the rendered changes. -/
def unified_diff (a b : List String) : String :=
  if (diffOps a b).all LineChange.isEqualTag then ""
  else "--- orig.asm\n+++ compare.asm\n"
    ++ String.intercalate "\n" ((diffOps a b).map lineChangeText)

/-! ## Helper lemmas -/

/-- A character is an uppercase hexadecimal digit. -/
def isHexUpper (c : Char) : Bool :=
  c.isDigit || ('A' ≤ c && c ≤ 'F')

theorem hexDigitChar_upper : ∀ k, k < 16 → isHexUpper (hexDigitChar k) = true := by decide

theorem natToHexAux_upper :
    ∀ (fuel n : Nat) (acc : List Char), (∀ c ∈ acc, isHexUpper c = true) →
      ∀ c ∈ natToHexAux fuel n acc, isHexUpper c = true := by
  intro fuel
  induction fuel with
  | zero => intro n acc h c hc; exact h c hc
  | succ f ih =>
      intro n acc h c hc
      unfold natToHexAux at hc
      by_cases hn : n = 0
      · simp only [hn, if_true] at hc
        exact h c hc
      · simp only [hn, if_false] at hc
        refine ih (n / 16) (hexDigitChar (n % 16) :: acc) ?_ c hc
        intro d hd
        rcases List.mem_cons.mp hd with h1 | h2
        · subst h1; exact hexDigitChar_upper (n % 16) (Nat.mod_lt n (by omega))
        · exact h d h2

theorem natHexDigits_upper (n : Nat) : ∀ c ∈ (natHexDigits n).data, isHexUpper c = true := by
  intro c hc
  unfold natHexDigits at hc
  by_cases hn : n = 0
  · simp only [hn, if_true] at hc
    obtain rfl := List.mem_singleton.mp hc
    decide
  · simp only [hn, if_false] at hc
    exact natToHexAux_upper (n + 1) n [] (by intro d hd; cases hd) c hc

/-! ## Claim C1 -/

/-- C1: for a decoded instruction with opcode `0xE8` (direct call), the
formatter computes the absolute target as the instruction's base address
plus the immediate plus the instruction length (wrapping in 64 bits), looks
it up in the side's address map, renders the mapped entry's display name
with the trailing parenthesised disambiguation suffix stripped when the
address is a key of the map, and otherwise renders the target address as
`0x` followed by uppercase hexadecimal digits — never a mapped entry's
name. -/
theorem c1_direct_call_operand (ip len reg sz : Nat) (value : Int) (ops : List Operand)
    (mnem : String) (m : FnMap) :
    (∀ f, fnMapGet m (callTarget ip len value) = some f →
      format_addrs ip m ⟨0xE8, reg, len, ops, mnem⟩ ⟨.imm value true true, sz⟩
        = cleanup_name f.name) ∧
    (fnMapGet m (callTarget ip len value) = none →
      format_addrs ip m ⟨0xE8, reg, len, ops, mnem⟩ ⟨.imm value true true, sz⟩
        = "0x" ++ natHexDigits (callTarget ip len value)) ∧
    (∀ c ∈ (natHexDigits (callTarget ip len value)).data, isHexUpper c = true) := by
  refine ⟨?_, ?_, natHexDigits_upper _⟩
  · intro f hf
    simp only [format_addrs]
    rw [hf]
    simp
  · intro hf
    simp only [format_addrs]
    rw [hf]
    simp [rustHexUpper]

/-- Closed instance of C1: with the target `0x401010` mapped to
`TargetFn(int)`, the call operand renders as the suffix-stripped name; with
an empty map it renders as the uppercase hexadecimal target. -/
theorem c1_direct_call_operand_witness :
    format_addrs 0x401000 [(0x401010, ⟨0x401010, "TargetFn(int)", none⟩)]
        ⟨0xE8, 0, 5, [], "call"⟩ ⟨.imm 11 true true, 32⟩ = cleanup_name "TargetFn(int)" ∧
    format_addrs 0x401000 [] ⟨0xE8, 0, 5, [], "call"⟩ ⟨.imm 11 true true, 32⟩
      = "0x" ++ natHexDigits (callTarget 0x401000 5 11) := by
  constructor
  · exact (c1_direct_call_operand 0x401000 5 0 32 11 [] "call"
      [(0x401010, ⟨0x401010, "TargetFn(int)", none⟩)]).1 ⟨0x401010, "TargetFn(int)", none⟩ rfl
  · exact (c1_direct_call_operand 0x401000 5 0 32 11 [] "call" []).2.1 rfl

/-! ## Claim C7 -/

/-- C7: the report generator's comparison step slices the binary image with
unchecked range indexing; an out-of-range slice Rust-panics instead of
producing an error value, so the failure is not contained to that
function's comparison.  A 4-byte image with a declared function size of 10
panics, while an in-bounds slice of the same image succeeds. -/
theorem c7_slice_out_of_bounds_panics :
    orig_slice_step [0, 0, 0, 0] ⟨0x400000, "f", some 10⟩ 0x400000 10 = .panic ∧
    sliceImage [0, 0, 0, 0] 0 4 = .ok [0, 0, 0, 0] := by
  exact ⟨rfl, rfl⟩

/-! ## Claim C8 -/

/-- C8: `write_disasm` calls `.unwrap()` on every item of the decode stream,
so a decode failure — first or mid-stream — makes the whole render call
Rust-panic rather than return a `DisasmError` value. -/
theorem c8_decode_failure_panics :
    write_disasm ⟨false, true, true⟩ [] [DecodeItem.fail] = .panic ∧
    write_disasm ⟨false, true, true⟩ []
        [DecodeItem.ok 0x401000 ⟨0x90, 0, 1, [], "nop"⟩, DecodeItem.fail] = .panic := by
  exact ⟨rfl, rfl⟩

/-! ## Claim C3 -/

/-- C3: memory-operand redaction.  With `show_mem_disp` true the literal
displacement prints in hexadecimal, except that an indirect call/jump
through memory (opcode `0xFF`, modrm reg field 2 or 3) always prints
`<indir_fn>` regardless of the flag; with `show_mem_disp` false the operand
prints `<indir_addr>`, and a real displacement appends a sign character and
the typed placeholder `<dispN>` with `N` the operand's size field. -/
theorem c3_memory_operand_redaction (opts : DisasmOpts) (ip : Nat) (m : FnMap)
    (opcode reg len sz : Nat) (ops : List Operand) (mnem : String) (hasDisp : Bool)
    (disp : Int) :
    (hasDisp = true → opcode = 0xFF → (reg = 2 ∨ reg = 3) →
      formatOperand opts ip m ⟨opcode, reg, len, ops, mnem⟩ ⟨.mem hasDisp disp, sz⟩
        = "<indir_fn>") ∧
    (opts.show_mem_disp = true → hasDisp = true → ¬(opcode = 0xFF ∧ (reg = 2 ∨ reg = 3)) →
      formatOperand opts ip m ⟨opcode, reg, len, ops, mnem⟩ ⟨.mem hasDisp disp, sz⟩
        = i64HexX disp) ∧
    (opts.show_mem_disp = true → hasDisp = false →
      formatOperand opts ip m ⟨opcode, reg, len, ops, mnem⟩ ⟨.mem hasDisp disp, sz⟩
        = "<indir_addr>") ∧
    (opts.show_mem_disp = false → hasDisp = true → ¬(opcode = 0xFF ∧ (reg = 2 ∨ reg = 3)) →
      formatOperand opts ip m ⟨opcode, reg, len, ops, mnem⟩ ⟨.mem hasDisp disp, sz⟩
        = "<indir_addr>" ++ ((if disp < 0 then "-" else "+") ++ "<disp" ++ toString sz ++ ">")) ∧
    (opts.show_mem_disp = false → hasDisp = false →
      formatOperand opts ip m ⟨opcode, reg, len, ops, mnem⟩ ⟨.mem hasDisp disp, sz⟩
        = "<indir_addr>") := by
  refine ⟨?_, ?_, ?_, ?_, ?_⟩
  · intro hd hop hreg
    subst hd hop
    by_cases hs : opts.show_mem_disp <;>
      simp [formatOperand, format_addrs, hs, hreg]
  · intro hs hd hnot
    subst hd
    simp [formatOperand, format_addrs, hs, hnot]
  · intro hs hd
    subst hd
    simp [formatOperand, format_addrs, hs]
  · intro hs hd hnot
    subst hd
    simp [formatOperand, format_addrs, void_format_disp, hs, hnot]
  · intro hs hd
    subst hd
    simp [formatOperand, format_addrs, void_format_disp, hs]

/-- Closed instance of C3: an indirect call through memory prints
`<indir_fn>` even with `show_mem_disp` false, and an ordinary displaced
memory operand with the flag false prints `<indir_addr>` with a typed
signed placeholder appended. -/
theorem c3_memory_operand_redaction_witness :
    formatOperand ⟨false, false, true⟩ 0 [] ⟨0xFF, 2, 2, [], "call"⟩
        ⟨.mem true 0x6D5A30, 32⟩ = "<indir_fn>" ∧
    formatOperand ⟨false, false, true⟩ 0 [] ⟨0x8B, 0, 3, [], "mov"⟩
        ⟨.mem true 8, 32⟩
      = "<indir_addr>" ++ ((if (8 : Int) < 0 then "-" else "+") ++ "<disp" ++ toString 32 ++ ">") := by
  constructor
  · exact (c3_memory_operand_redaction ⟨false, false, true⟩ 0 [] 0xFF 2 2 32 [] "call"
      true 0x6D5A30).1 rfl rfl (Or.inl rfl)
  · exact (c3_memory_operand_redaction ⟨false, false, true⟩ 0 [] 0x8B 0 3 32 [] "mov"
      true 8).2.2.2.1 rfl rfl (by decide)

/-! ## Claim C4 -/

theorem takeRun_not_banned : ∀ (l : List Char), ∀ c ∈ takeRun l, ¬(c = '@' ∨ c = '(') := by
  intro l
  induction l with
  | nil => intro c hc; cases hc
  | cons x xs ih =>
      intro c hc
      unfold takeRun at hc
      by_cases hx : x = '@' ∨ x = '('
      · simp only [if_pos hx] at hc
        cases hc
      · simp only [if_neg hx] at hc
        rcases List.mem_cons.mp hc with h1 | h2
        · subst h1; exact hx
        · exact ih c h2

theorem firstRun_not_banned : ∀ (l : List Char), ∀ c ∈ firstRun l, ¬(c = '@' ∨ c = '(') := by
  intro l
  induction l with
  | nil => intro c hc; cases hc
  | cons x xs ih =>
      intro c hc
      unfold firstRun at hc
      by_cases hx : x = '@' ∨ x = '('
      · simp only [if_pos hx] at hc
        exact ih c hc
      · simp only [if_neg hx] at hc
        rcases List.mem_cons.mp hc with h1 | h2
        · subst h1; exact hx
        · exact takeRun_not_banned xs c h2

theorem takeRun_eq_takeWhile :
    ∀ (l : List Char), takeRun l = l.takeWhile (fun c => ¬(c = '@' ∨ c = '(')) := by
  intro l
  induction l with
  | nil => rfl
  | cons x xs ih =>
      rw [List.takeWhile_cons]
      unfold takeRun
      by_cases hx : x = '@' ∨ x = '('
      · rw [if_pos hx,
          if_neg (by rw [decide_eq_false (not_not_intro hx)]; exact Bool.false_ne_true)]
      · rw [if_neg hx, if_pos (decide_eq_true hx), ih]

theorem firstRun_all_banned :
    ∀ (l : List Char), (∀ c ∈ l, c = '@' ∨ c = '(') → firstRun l = [] := by
  intro l
  induction l with
  | nil => intro _; rfl
  | cons x xs ih =>
      intro h
      unfold firstRun
      rw [if_pos (h x (List.mem_cons_self x xs))]
      exact ih (fun c hc => h c (List.mem_cons_of_mem x hc))

/-- C4 counterexample: on the raw name `@foo` the transform yields `foo`,
while the longest leading run excluding `'@'` and `'('` is empty — and the
raw name is not kept either; the claim as stated is false at this input. -/
theorem c4_counterexample :
    demangle_function_name "@foo" = "foo" ∧ leadingRunSpec "@foo" = "" ∧
    ("foo" : String) ≠ "" ∧ ("foo" : String) ≠ "@foo" := by
  refine ⟨rfl, rfl, by decide, by decide⟩

/-- C4 (amended): the demangling transform yields the first maximal run of
characters excluding `'@'` and `'('` — which contains no excluded character,
coincides with the longest leading such run whenever the name does not begin
with an excluded character (so `foo@@YAXXZ(int)` demangles to `foo`), and is
the empty string (not the raw name) when the pattern does not match at
all. -/
theorem c4_demangle_first_run (name : String) :
    (∀ c ∈ (demangle_function_name name).data, ¬(c = '@' ∨ c = '(')) ∧
    (∀ c cs, name.data = c :: cs → ¬(c = '@' ∨ c = '(') →
      demangle_function_name name = leadingRunSpec name) ∧
    ((∀ c ∈ name.data, c = '@' ∨ c = '(') → demangle_function_name name = "") ∧
    demangle_function_name "foo@@YAXXZ(int)" = "foo" := by
  refine ⟨?_, ?_, ?_, rfl⟩
  · intro c hc
    exact firstRun_not_banned name.data c hc
  · intro c cs hdata hc
    unfold demangle_function_name leadingRunSpec
    rw [hdata]
    unfold firstRun
    rw [if_neg hc, List.takeWhile_cons, if_pos (decide_eq_true hc), takeRun_eq_takeWhile]
  · intro h
    unfold demangle_function_name
    rw [firstRun_all_banned name.data h]

/-- Closed instance of C4 (amended): a name starting with an allowed
character demangles to its leading run. -/
theorem c4_demangle_first_run_witness :
    demangle_function_name "bar(x)" = leadingRunSpec "bar(x)" :=
  (c4_demangle_first_run "bar(x)").2.1 'b' ['a', 'r', '(', 'x', ')'] rfl (by decide)

/-! ## Claims C5, C6, C10: shared characterization of `to_function_symbol` -/

theorem to_function_symbol_ok (r : PdbFuncRecord) (n : String)
    (hn : r.name = some n) (hrva : PDB_PREAMBLE ≤ r.start_rva)
    (hend : ∀ e, r.end_rva = some e → r.start_rva ≤ e) :
    to_function_symbol r = some
      ⟨n, r.files.headD "UNKNOWN", r.start_rva - PDB_PREAMBLE,
        (r.end_rva.getD r.start_rva) - r.start_rva⟩ := by
  simp only [to_function_symbol, hn]
  rw [if_neg (Nat.not_lt.mpr hrva)]
  cases he : r.end_rva with
  | some e => simp [Nat.not_lt.mpr (hend e he)]
  | none => simp

/-! ## Claim C6 -/

/-- C6: a named record's stored offset is its start address minus the fixed
preamble constant, its stored size is end minus start when an end address is
recorded and `0` otherwise; the rebuilt-binary address map keys every symbol
at `offset + PDB_SEGMENT_OFFSET`, while the reference-binary map keys each
configured entry at its `addr` verbatim. -/
theorem c6_offsets_and_map_keys (r : PdbFuncRecord) (n : String)
    (hn : r.name = some n) (hrva : PDB_PREAMBLE ≤ r.start_rva)
    (hend : ∀ e, r.end_rva = some e → r.start_rva ≤ e) :
    (∃ s, to_function_symbol r = some s ∧
      s.offset = r.start_rva - PDB_PREAMBLE ∧
      (∀ e, r.end_rva = some e → s.size = e - r.start_rva) ∧
      (r.end_rva = none → s.size = 0) ∧
      as_function_definition_pair s = (s.offset + PDB_SEGMENT_OFFSET, as_function_definition s)) ∧
    (∀ syms : List (String × FunctionSymbol), ∀ p ∈ get_pdb_fn_map syms,
      p.1 = p.2.addr ∧ ∃ q ∈ syms, p.1 = q.2.offset + PDB_SEGMENT_OFFSET) ∧
    (∀ cfg : ComparerConfig, ∀ f ∈ cfg.func, (f.addr, f) ∈ orig_fn_map cfg) := by
  refine ⟨⟨_, to_function_symbol_ok r n hn hrva hend, rfl, ?_, ?_, rfl⟩, ?_, ?_⟩
  · intro e he
    simp [he]
  · intro he
    simp [he]
  · intro syms p hp
    obtain ⟨q, hq, rfl⟩ := List.mem_map.mp hp
    exact ⟨rfl, q, hq, rfl⟩
  · intro cfg f hf
    exact List.mem_map.mpr ⟨f, hf, rfl⟩

/-- Closed instance of C6: a record at start RVA `0x2C00` with end RVA
`0x2C40` stores offset `0x2000` and size `0x40`, keyed in the rebuilt map at
`0x2000 + PDB_SEGMENT_OFFSET`. -/
theorem c6_offsets_and_map_keys_witness :
    (∃ s, to_function_symbol ⟨some "foo@@YAXXZ(int)", 0x2C00, some 0x2C40, ["a.c"]⟩ = some s ∧
      s.offset = 0x2C00 - PDB_PREAMBLE ∧
      (∀ e, (some 0x2C40 : Option Nat) = some e → s.size = e - 0x2C00) ∧
      ((some 0x2C40 : Option Nat) = none → s.size = 0) ∧
      as_function_definition_pair s = (s.offset + PDB_SEGMENT_OFFSET, as_function_definition s)) ∧
    (∀ syms : List (String × FunctionSymbol), ∀ p ∈ get_pdb_fn_map syms,
      p.1 = p.2.addr ∧ ∃ q ∈ syms, p.1 = q.2.offset + PDB_SEGMENT_OFFSET) ∧
    (∀ cfg : ComparerConfig, ∀ f ∈ cfg.func, (f.addr, f) ∈ orig_fn_map cfg) :=
  c6_offsets_and_map_keys ⟨some "foo@@YAXXZ(int)", 0x2C00, some 0x2C40, ["a.c"]⟩
    "foo@@YAXXZ(int)" rfl (by decide) (by intro e he; cases he; decide)

/-! ## Claim C10 -/

theorem get_pdb_funcsAux_total :
    ∀ (records : List PdbFuncRecord) (acc : List (String × FunctionSymbol)),
      (∀ r ∈ records, (∃ nm, r.name = some nm) ∧ PDB_PREAMBLE ≤ r.start_rva ∧
        (∀ e, r.end_rva = some e → r.start_rva ≤ e)) →
      ∃ m, get_pdb_funcsAux records acc = some m := by
  intro records
  induction records with
  | nil => intro acc _; exact ⟨acc, rfl⟩
  | cons r rs ih =>
      intro acc h
      obtain ⟨⟨nm, hn⟩, hrva, hend⟩ := h r (List.mem_cons_self r rs)
      unfold get_pdb_funcsAux
      rw [to_function_symbol_ok r nm hn hrva hend]
      exact ih _ (fun q hq => h q (List.mem_cons_of_mem r hq))

/-- C10: the extraction subtracts the fixed preamble constant `0xC00` from
each named record's start RVA with no guard; a named record whose start RVA
is below `0xC00` makes the checked `u32` subtraction underflow, so the
extraction does not return normally (modelled as `none`), while any record
list whose named entries all start at or above `0xC00` (with well-ordered
end addresses) extracts normally. -/
theorem c10_preamble_underflow :
    get_pdb_funcs [⟨some "f", 0xBFF, none, []⟩] = none ∧
    (∀ records : List PdbFuncRecord,
      (∀ r ∈ records, (∃ nm, r.name = some nm) ∧ PDB_PREAMBLE ≤ r.start_rva ∧
        (∀ e, r.end_rva = some e → r.start_rva ≤ e)) →
      ∃ m, get_pdb_funcs records = some m) := by
  constructor
  · rfl
  · intro records h
    exact get_pdb_funcsAux_total records [] h

/-- Closed instance of C10: a record list meeting the precondition extracts
normally. -/
theorem c10_preamble_underflow_witness :
    ∃ m, get_pdb_funcs [⟨some "f", 0xC00, none, []⟩] = some m :=
  c10_preamble_underflow.2 [⟨some "f", 0xC00, none, []⟩] (by
    intro r hr
    obtain rfl := List.mem_singleton.mp hr
    exact ⟨⟨"f", rfl⟩, by decide, by intro e he; cases he⟩)

/-! ## Claim C5 -/

/-- C5: with `truncate_to_original` set and a declared reference size `S`,
the compare-side byte extraction reads exactly `S` bytes (hence at most
`S`, whatever size the debug file reports); with `truncate_to_original` set
and no declared reference size, `run` fails with the required-size error
and no byte-extraction plan is produced. -/
theorem c5_truncation_policy (cfg : ComparerConfig) (sym : String)
    (pdbFuncs : List (String × FunctionSymbol)) (origFn : FunctionDefinition)
    (hfind : cfg.func.find? (fun f => f.name == sym) = some origFn) :
    (∀ S fnSym, origFn.size = some S → symMapGet pdbFuncs sym = some fnSym →
      run_model true sym cfg pdbFuncs
        = .ok (⟨origFn.addr - cfg.address_offset, S⟩, ⟨fnSym.offset, S⟩)) ∧
    (origFn.size = none →
      run_model true sym cfg pdbFuncs = .error (.requiredFunctionSizeNotFound origFn.name)) := by
  constructor
  · intro S fnSym hS hsym
    simp only [run_model, hfind]
    rw [if_neg (by simp [hS])]
    simp [write_compare_model, hsym, hS]
  · intro hS
    simp only [run_model, hfind]
    rw [if_pos ⟨hS, trivial⟩]

/-- Closed instance of C5: with a declared size `16` and a PDB-reported size
`0x40`, the compare-side read is 16 bytes; with no declared size the run
fails with the required-size error. -/
theorem c5_truncation_policy_witness :
    run_model true "f" ⟨0x400000, [⟨0x401000, "f", some 16⟩]⟩
        [("f", ⟨"f", "file.c", 0x2000, 0x40⟩)]
      = .ok (⟨0x1000, 16⟩, ⟨0x2000, 16⟩) ∧
    run_model true "g" ⟨0x400000, [⟨0x401000, "g", none⟩]⟩ []
      = .error (.requiredFunctionSizeNotFound "g") := by
  constructor
  · exact (c5_truncation_policy ⟨0x400000, [⟨0x401000, "f", some 16⟩]⟩ "f"
      [("f", ⟨"f", "file.c", 0x2000, 0x40⟩)] ⟨0x401000, "f", some 16⟩ rfl).1 16
      ⟨"f", "file.c", 0x2000, 0x40⟩ rfl rfl
  · exact (c5_truncation_policy ⟨0x400000, [⟨0x401000, "g", none⟩]⟩ "g" []
      ⟨0x401000, "g", none⟩ rfl).2 rfl

/-! ## Claim C9 -/

theorem format_addrs_ext (ip : Nat) (m1 m2 : FnMap) (insn : Insn) (op : Operand)
    (h : ∀ k, fnMapGet m1 k = fnMapGet m2 k) :
    format_addrs ip m1 insn op = format_addrs ip m2 insn op := by
  obtain ⟨kind, sz⟩ := op
  cases kind with
  | mem hasDisp disp => rfl
  | imm v rel sgn =>
      simp only [format_addrs]
      rw [h (callTarget ip insn.length v)]
  | other => rfl

theorem formatOperand_ext (opts : DisasmOpts) (ip : Nat) (m1 m2 : FnMap) (insn : Insn)
    (op : Operand) (h : ∀ k, fnMapGet m1 k = fnMapGet m2 k) :
    formatOperand opts ip m1 insn op = formatOperand opts ip m2 insn op := by
  obtain ⟨kind, sz⟩ := op
  cases kind with
  | mem hasDisp disp =>
      simp only [formatOperand]
      rw [format_addrs_ext ip m1 m2 insn ⟨.mem hasDisp disp, sz⟩ h]
  | imm v rel sgn =>
      simp only [formatOperand]
      rw [format_addrs_ext ip m1 m2 insn ⟨.imm v rel sgn, sz⟩ h]
  | other => rfl

theorem renderInsn_ext (opts : DisasmOpts) (ip : Nat) (m1 m2 : FnMap) (insn : Insn)
    (h : ∀ k, fnMapGet m1 k = fnMapGet m2 k) :
    renderInsn opts ip m1 insn = renderInsn opts ip m2 insn := by
  have hf : formatOperand opts ip m1 insn = formatOperand opts ip m2 insn :=
    funext (fun op => formatOperand_ext opts ip m1 m2 insn op h)
  unfold renderInsn
  rw [hf]

theorem write_disasmAux_ext (opts : DisasmOpts) (m1 m2 : FnMap)
    (h : ∀ k, fnMapGet m1 k = fnMapGet m2 k) :
    ∀ (items : List DecodeItem) (acc : String),
      write_disasmAux opts m1 items acc = write_disasmAux opts m2 items acc := by
  intro items
  induction items with
  | nil => intro acc; rfl
  | cons it rest ih =>
      intro acc
      cases it with
      | fail => rfl
      | ok ip insn =>
          simp only [write_disasmAux]
          rw [renderInsn_ext opts ip m1 m2 insn h]
          exact ih _

/-- C9: rendering is deterministic and observes the address map only through
keyed lookup — two maps that agree on every lookup (in particular, the same
unordered-map contents presented in any internal order) yield byte-identical
output text for the same bytes, base address, and options. -/
theorem c9_render_deterministic (opts : DisasmOpts) (m1 m2 : FnMap) (items : List DecodeItem)
    (h : ∀ k, fnMapGet m1 k = fnMapGet m2 k) :
    write_disasm opts m1 items = write_disasm opts m2 items :=
  write_disasmAux_ext opts m1 m2 h items ""

/-- Closed instance of C9: two association lists with the same lookup table
(one carrying a shadowed duplicate entry) render identically. -/
theorem c9_render_deterministic_witness :
    write_disasm ⟨true, true, true⟩
        [(0x401010, ⟨0x401010, "A", none⟩), (0x401010, ⟨0x401010, "B", none⟩)]
        [DecodeItem.ok 0x401000 ⟨0xE8, 0, 5, [⟨.imm 11 true true, 32⟩], "call"⟩]
      = write_disasm ⟨true, true, true⟩ [(0x401010, ⟨0x401010, "A", none⟩)]
        [DecodeItem.ok 0x401000 ⟨0xE8, 0, 5, [⟨.imm 11 true true, 32⟩], "call"⟩] := by
  apply c9_render_deterministic
  intro k
  by_cases hk : 0x401010 = k
  · subst hk; rfl
  · have hb : ((0x401010 : Nat) == k) = false := beq_eq_false_iff_ne.mpr hk
    simp [fnMapGet, List.find?_cons, hb]

/-! ## Claim C2 -/

theorem lcsLen_le_left (a b : List String) : lcsLen a b ≤ a.length := by
  induction a, b using lcsLen.induct with
  | case1 x => simp [lcsLen]
  | case2 h t => simp [lcsLen]
  | case3 as b bs ih =>
      simp [lcsLen]
      omega
  | case4 a as b bs hne ih1 ih2 =>
      simp only [lcsLen, if_neg hne]
      refine max_le ih1 (ih2.trans ?_)
      rw [List.length_cons]
      omega

theorem lcsLen_le_right (a b : List String) : lcsLen a b ≤ b.length := by
  induction a, b using lcsLen.induct with
  | case1 x => simp [lcsLen]
  | case2 h t => simp [lcsLen]
  | case3 as b bs ih =>
      simp [lcsLen]
      omega
  | case4 a as b bs hne ih1 ih2 =>
      simp only [lcsLen, if_neg hne]
      refine max_le (ih1.trans ?_) ih2
      rw [List.length_cons]
      omega

theorem lcsLen_self (a : List String) : lcsLen a a = a.length := by
  induction a with
  | nil => simp [lcsLen]
  | cons x xs ih => simp [lcsLen, ih]

theorem lcsLen_full : ∀ (a b : List String),
    lcsLen a b = a.length → lcsLen a b = b.length → a = b := by
  intro a b
  induction a, b using lcsLen.induct with
  | case1 x =>
      intro _ h2
      simp only [lcsLen] at h2
      exact (List.length_eq_zero.mp h2.symm).symm
  | case2 h t =>
      intro h1 _
      simp [lcsLen] at h1
  | case3 as b bs ih =>
      intro h1 h2
      simp [lcsLen] at h1 h2
      rw [ih (by omega) (by omega)]
  | case4 a as b bs hne ih1 ih2 =>
      intro h1 h2
      exfalso
      have hu := lcsLen_le_right (a :: as) bs
      have hv := lcsLen_le_left as (b :: bs)
      simp only [lcsLen, if_neg hne, List.length_cons] at h1 h2
      omega

theorem ratioValue_self (a : List String) : ratioValue a a = 1 := by
  unfold ratioValue
  split_ifs with h
  · rfl
  · rw [lcsLen_self]
    have hpos : (0 : ℚ) < (a.length : ℚ) + (a.length : ℚ) := by
      have : 0 < a.length := by omega
      positivity
    field_simp
    ring

theorem diffOps_self (a : List String) : diffOps a a = a.map LineChange.equal := by
  induction a with
  | nil => simp [diffOps]
  | cons x xs ih => simp [diffOps, ih]

theorem unified_diff_self (a : List String) : unified_diff a a = "" := by
  unfold unified_diff
  rw [diffOps_self,
    if_pos (by simp [List.all_map, Function.comp, LineChange.isEqualTag])]

/-- C2: the match ratio lies in `[0, 1]`, equals `2*M/T` with `M` the
matching-line count and `T` the total line count whenever `T` is nonzero,
and equals `1` exactly when the two rendered texts are line-identical; in
particular a self-comparison yields ratio `1` and an empty unified diff. -/
theorem c2_match_ratio (a b : List String) :
    0 ≤ ratioValue a b ∧ ratioValue a b ≤ 1 ∧
    (a.length + b.length ≠ 0 →
      ratioValue a b = 2 * (lcsLen a b : ℚ) / ((a.length : ℚ) + (b.length : ℚ))) ∧
    (ratioValue a b = 1 ↔ a = b) ∧
    ratioValue a a = 1 ∧ unified_diff a a = "" := by
  have hle : 2 * lcsLen a b ≤ a.length + b.length := by
    have h1 := lcsLen_le_left a b
    have h2 := lcsLen_le_right a b
    omega
  refine ⟨?_, ?_, ?_, ?_, ratioValue_self a, unified_diff_self a⟩
  · unfold ratioValue
    split_ifs with h
    · exact zero_le_one
    · positivity
  · unfold ratioValue
    split_ifs with h
    · exact le_refl 1
    · have hpos : (0 : ℚ) < (a.length : ℚ) + (b.length : ℚ) := by
        have : 0 < a.length + b.length := Nat.pos_of_ne_zero h
        exact_mod_cast this
      rw [div_le_one hpos]
      exact_mod_cast hle
  · intro h
    unfold ratioValue
    rw [if_neg h]
  · constructor
    · intro h
      unfold ratioValue at h
      split_ifs at h with h0
      · have ha : a = [] := List.length_eq_zero.mp (by omega)
        have hb : b = [] := List.length_eq_zero.mp (by omega)
        rw [ha, hb]
      · have hpos : (0 : ℚ) < (a.length : ℚ) + (b.length : ℚ) := by
          have : 0 < a.length + b.length := Nat.pos_of_ne_zero h0
          exact_mod_cast this
        rw [div_eq_one_iff_eq (ne_of_gt hpos)] at h
        have hNat : 2 * lcsLen a b = a.length + b.length := by exact_mod_cast h
        have h1 := lcsLen_le_left a b
        have h2 := lcsLen_le_right a b
        exact lcsLen_full a b (by omega) (by omega)
    · intro h
      rw [h]
      exact ratioValue_self b

/-- Closed instance of C2 at one-line texts. -/
theorem c2_match_ratio_witness :
    0 ≤ ratioValue ["x"] [] ∧ ratioValue ["x"] [] ≤ 1 ∧
    (List.length ["x"] + List.length ([] : List String) ≠ 0 →
      ratioValue ["x"] [] = 2 * (lcsLen ["x"] [] : ℚ)
        / ((List.length ["x"] : ℚ) + (List.length ([] : List String) : ℚ))) ∧
    (ratioValue ["x"] [] = 1 ↔ ["x"] = ([] : List String)) ∧
    ratioValue ["x"] ["x"] = 1 ∧ unified_diff ["x"] ["x"] = "" :=
  c2_match_ratio ["x"] []
